import Mathlib

/-!
Shallow embedding of the Wudooh browser extension sources
(src/chrome/main.ts, src/src/background.ts, src/unnamed/part_000)
together with theorems checking the claims of the specification.

The content script detects Arabic-script text nodes, wraps or restyles
them, watches the document for mutations and reacts to settings
messages; the background scripts initialize persisted settings on
install or update.
-/

namespace Wudooh

/-- Characters of the first character class of the regex literal
`arabicRegex` in main.ts line 13: the code point ranges
U+0600-U+06FF, U+0750-U+077F, U+08A0-U+08FF, U+FB50-U+FDFF and
U+FE70-U+FEFF. -/
def arabicCharCls (c : Char) : Bool :=
  (0x600 ≤ c.toNat && c.toNat ≤ 0x6FF) ||
  (0x750 ≤ c.toNat && c.toNat ≤ 0x77F) ||
  (0x8A0 ≤ c.toNat && c.toNat ≤ 0x8FF) ||
  (0xFB50 ≤ c.toNat && c.toNat ≤ 0xFDFF) ||
  (0xFE70 ≤ c.toNat && c.toNat ≤ 0xFEFF)

/-- JavaScript word characters for a regex without the unicode flag:
ASCII letters, ASCII digits and the underscore. -/
def jsWordChar (c : Char) : Bool :=
  (0x41 ≤ c.toNat && c.toNat ≤ 0x5A) ||
  (0x61 ≤ c.toNat && c.toNat ≤ 0x7A) ||
  (0x30 ≤ c.toNat && c.toNat ≤ 0x39) ||
  c == '_'

/-- JavaScript digit characters, the class written backslash-d. -/
def jsDigitChar (c : Char) : Bool := 0x30 ≤ c.toNat && c.toNat ≤ 0x39

/-- Second character class of `arabicRegex`: the Arabic ranges together
with non-word characters (backslash-W) and digits (backslash-d). -/
def extCharCls (c : Char) : Bool :=
  arabicCharCls c || !jsWordChar c || jsDigitChar c

/-- Abstract syntax for the regular expressions needed to model the
regex literal of main.ts; character classes are kept as predicates. -/
inductive Rx where
  | fail
  | eps
  | cls (p : Char → Bool)
  | cat (r s : Rx)
  | alt (r s : Rx)
  | star (r : Rx)

/-- Whether the empty word is in the language of the expression. -/
def Rx.nullable : Rx → Bool
  | .fail => false
  | .eps => true
  | .cls _ => false
  | .cat r s => r.nullable && s.nullable
  | .alt r s => r.nullable || s.nullable
  | .star _ => true

/-- Concatenation, simplifying the failure and empty-word units. -/
def Rx.mkCat : Rx → Rx → Rx
  | .fail, _ => .fail
  | _, .fail => .fail
  | .eps, s => s
  | r, .eps => r
  | r, s => .cat r s

/-- Alternation, simplifying the failure unit. -/
def Rx.mkAlt : Rx → Rx → Rx
  | .fail, s => s
  | r, .fail => r
  | r, s => .alt r s

/-- Brzozowski derivative with respect to one character. -/
def Rx.deriv : Rx → Char → Rx
  | .fail, _ => .fail
  | .eps, _ => .fail
  | .cls p, c => if p c then .eps else .fail
  | .cat r s, c =>
      if r.nullable then Rx.mkAlt (Rx.mkCat (r.deriv c) s) (s.deriv c)
      else Rx.mkCat (r.deriv c) s
  | .alt r s, c => Rx.mkAlt (r.deriv c) (s.deriv c)
  | .star r, c => Rx.mkCat (r.deriv c) (.star r)

/-- Whether a match attempt anchored at the start of the list succeeds,
that is, whether some prefix of the list is in the language. -/
def Rx.matchHere : Rx → List Char → Bool
  | r, [] => r.nullable
  | r, c :: rest => r.nullable || (r.deriv c).matchHere rest

/-- Unanchored search as performed by the JavaScript match call:
attempt a match at every position of the string. -/
def Rx.searchMatch : Rx → List Char → Bool
  | r, [] => r.nullable
  | r, c :: rest => r.matchHere (c :: rest) || r.searchMatch rest

/-- One-or-more repetition, as the regex plus operator abbreviates. -/
def Rx.plus (r : Rx) : Rx := .cat r (.star r)

/-- The regex literal of main.ts line 13, a group of one-or-more
first-class characters followed by zero-or-more groups of one-or-more
extension-class characters.  (In the source string the sequence
backslash right-bracket closes the first class, so the first class is
exactly the five Arabic ranges.) -/
def arabicRegex : Rx :=
  .cat (Rx.plus (.cls arabicCharCls)) (.star (Rx.plus (.cls extCharCls)))

theorem arabicRegex_nullable : arabicRegex.nullable = false := rfl

theorem deriv_arabicRegex_neg {c : Char} (h : arabicCharCls c = false) :
    arabicRegex.deriv c = Rx.fail := by
  simp [arabicRegex, Rx.plus, Rx.deriv, Rx.nullable, h, Rx.mkCat]

theorem deriv_arabicRegex_pos {c : Char} (h : arabicCharCls c = true) :
    (arabicRegex.deriv c).nullable = true := by
  simp [arabicRegex, Rx.plus, Rx.deriv, Rx.nullable, h, Rx.mkCat]

theorem matchHere_fail (l : List Char) : Rx.fail.matchHere l = false := by
  induction l with
  | nil => rfl
  | cons c rest ih => simp [Rx.matchHere, Rx.deriv, Rx.nullable, ih]

theorem matchHere_of_nullable {r : Rx} (h : r.nullable = true)
    (l : List Char) : r.matchHere l = true := by
  cases l with
  | nil => simpa [Rx.matchHere] using h
  | cons c rest => simp [Rx.matchHere, h]

/-- Searching with the Arabic regex succeeds exactly when some character
of the string lies in the first character class. -/
theorem searchMatch_arabicRegex (l : List Char) :
    arabicRegex.searchMatch l = l.any arabicCharCls := by
  induction l with
  | nil => rfl
  | cons c rest ih =>
      by_cases h : arabicCharCls c = true
      · have hn := deriv_arabicRegex_pos h
        simp [Rx.searchMatch, Rx.matchHere, arabicRegex_nullable,
          matchHere_of_nullable hn, h]
      · have hf : arabicCharCls c = false := by
          cases hc : arabicCharCls c with
          | false => rfl
          | true => exact absurd hc h
        simp [Rx.searchMatch, Rx.matchHere, arabicRegex_nullable,
          deriv_arabicRegex_neg hf, matchHere_fail, ih, hf]

/-- Inline style declarations of an element, in em units for the two
size properties.  A value of `none` means the declaration is absent;
assigning the empty string to a style property in the DOM removes the
declaration, which is likewise modelled as `none`. -/
structure Style where
  fontSize : Option ℚ := none
  lineHeight : Option ℚ := none
  fontFamily : Option String := none
deriving DecidableEq

/-- A document node: a text node carrying character data, or an element
with a tag name, attributes, inline style, content-editable flag and
children in document order. -/
inductive DomNode where
  | text (value : String)
  | elem (tag : String) (attrs : List (String × String)) (style : Style)
      (contentEditable : Bool) (children : List DomNode)

/-- The nodeValue property: the character data of a text node, null for
an element. -/
def nodeValue : DomNode → Option String
  | .text v => some v
  | .elem _ _ _ _ _ => none

/-- The getAttribute lookup on an element's attribute list. -/
def getAttr (attrs : List (String × String)) (name : String) :
    Option String :=
  (attrs.find? (fun a => a.1 == name)).map (fun a => a.2)

/-- hasArabicScript from main.ts: the node has a non-null, non-empty
value (double negation of nodeValue) and the value matches the Arabic
regex. -/
def hasArabicScript (node : DomNode) : Bool :=
  match nodeValue node with
  | some v => !v.isEmpty && arabicRegex.searchMatch v.data
  | none => false

/-- Modelled from the spec: shared.ts (not under src/) defines the
`htmlEditables` array; its contents are given by the documentation of
isEditable in main.ts and by the spec's list of editable surfaces. -/
def htmlEditables : List String :=
  ["textarea", "input", "text", "email", "number", "search", "tel",
   "url", "password"]

/-- Lowercasing of a tag name, as toLowerCase acts on the ASCII node
names compared against htmlEditables. -/
def lowerTag (s : String) : String := String.mk (s.data.map Char.toLower)

/-- isEditable from main.ts: the node reports isContentEditable, or it
is an element whose lowercased node name is one of htmlEditables.  A
text node has node name "#text", is not an element node, and its
isContentEditable property is undefined, so it is never editable. -/
def isEditable : DomNode → Bool
  | .text _ => false
  | .elem tag _ _ ce _ => ce || htmlEditables.contains (lowerTag tag)

/-- hasBeenUpdated from main.ts: the node's parent element exists and
carries the attribute wudooh with value "true".  The parent element is
passed explicitly here; `none` models a detached node. -/
def hasBeenUpdated (parent : Option DomNode) : Bool :=
  match parent with
  | some (.elem _ attrs _ _ _) => getAttr attrs "wudooh" == some "true"
  | _ => false

/-- Replacement of the child at the given index by a list of nodes:
setNodeHtml inserts every parsed node before the original node's next
sibling and then removes the original node. -/
def replaceChildAt (children : List DomNode) (idx : Nat)
    (newNodes : List DomNode) : List DomNode :=
  children.take idx ++ newNodes ++ children.drop (idx + 1)

/-- setNodeHtml from main.ts, with the temporary div's parsed children
passed as a node list.  The node lives at position `idx` of its parent;
a `none` parent models a detached node, for which the function returns
without touching anything.  If the parent or the node is editable
nothing is changed either. -/
def setNodeHtml (node : DomNode) (parent : Option DomNode) (idx : Nat)
    (newNodes : List DomNode) : Option DomNode :=
  match parent with
  | none => none
  | some p =>
      if isEditable p || isEditable node then some p
      else
        match p with
        | .elem t a s ce children =>
            some (.elem t a s ce (replaceChildAt children idx newNodes))
        | .text v => some (.text v)

/-- A segment of a text value under the global regex replace: a run
matched by the Arabic regex, or a stretch of plain unmatched text. -/
inductive Seg where
  | plain (chars : List Char)
  | run (chars : List Char)

/-- Splitting a character list into plain and matched segments under
the global search of the Arabic regex: the leftmost match begins at the
next first-class character and extends greedily while characters remain
in the extension class; the search then resumes after the match.  Fuel
is the length of the list. -/
def splitRunsAux : Nat → List Char → List Seg
  | 0, _ => []
  | _, [] => []
  | fuel + 1, c :: rest =>
      if arabicCharCls c then
        Seg.run (c :: rest.takeWhile extCharCls) ::
          splitRunsAux fuel (rest.dropWhile extCharCls)
      else
        match splitRunsAux fuel rest with
        | Seg.plain p :: segs => Seg.plain (c :: p) :: segs
        | segs => Seg.plain [c] :: segs

/-- The segments of a string under the global Arabic-regex search. -/
def splitRuns (l : List Char) : List Seg := splitRunsAux l.length l

/-- The inline style written into a new wrapper span by updateByAdding:
font-size and line-height always, font-family only when the font is not
the sentinel "Original". -/
def wrapStyle (textSize lineHeight : ℚ) (font : String) : Style :=
  { fontSize := some textSize, lineHeight := some lineHeight,
    fontFamily := if font = "Original" then none else some font }

/-- The node list produced by parsing the replacement html of
updateByAdding: unmatched text stays a text node, every matched run
becomes a span with attribute wudooh="true", the wrapper style, and the
run's text as only child. -/
def renderSegs (segs : List Seg) (textSize lineHeight : ℚ)
    (font : String) : List DomNode :=
  segs.map fun s =>
    match s with
    | .plain cs => .text (String.mk cs)
    | .run cs =>
        .elem "span" [("wudooh", "true")]
          (wrapStyle textSize lineHeight font) false [.text (String.mk cs)]

/-- updateByAdding from main.ts: replace every regex match of the
node's value by wrapper markup and splice the parsed result into the
parent via setNodeHtml.  The function is reached only for nodes with a
non-empty value (guard in updateNode), so the default for an absent
value is never taken. -/
def updateByAdding (node : DomNode) (parent : Option DomNode) (idx : Nat)
    (textSize lineHeight : ℚ) (font : String) : Option DomNode :=
  setNodeHtml node parent idx
    (renderSegs (splitRuns ((nodeValue node).getD "").data)
      textSize lineHeight font)

/-- updateByChanging from main.ts: overwrite the parent element's
inline font-size and line-height, and clear the font-family for the
sentinel "Original" or overwrite it otherwise.  Reached only when
hasBeenUpdated holds, so the parent is an element. -/
def updateByChanging (parent : DomNode) (textSize lineHeight : ℚ)
    (font : String) : DomNode :=
  match parent with
  | .elem t a st ce ch =>
      .elem t a
        { st with
          fontSize := some textSize
          lineHeight := some lineHeight
          fontFamily := if font = "Original" then none else some font }
        ce ch
  | .text v => .text v

/-- updateNode from main.ts.  The node's parent element and the node's
index among its children are passed explicitly; the function returns
the parent after the call (`none` when the node is detached).  Nothing
happens when the node's value is null or empty. -/
def updateNode (node : DomNode) (parent : Option DomNode) (idx : Nat)
    (textSize lineHeight : ℚ) (font : String) : Option DomNode :=
  let newSize : ℚ := textSize / 100
  let newHeight : ℚ := lineHeight / 100
  match nodeValue node with
  | some v =>
      if v.isEmpty then parent
      else if hasBeenUpdated parent then
        parent.map (fun p => updateByChanging p newSize newHeight font)
      else updateByAdding node parent idx newSize newHeight font
  | none => parent

/-- Iterated application of updateNode with fixed parameters, each call
acting on the parent produced by the previous one. -/
def updateNodeIter (node : DomNode) (parent : Option DomNode) (idx : Nat)
    (textSize lineHeight : ℚ) (font : String) : Nat → Option DomNode
  | 0 => parent
  | n + 1 =>
      updateNode node
        (updateNodeIter node parent idx textSize lineHeight font n)
        idx textSize lineHeight font

/-- The child list of a node; text nodes have no children. -/
def nodeChildren : DomNode → List DomNode
  | .text _ => []
  | .elem _ _ _ _ ch => ch

/-- Whether the node is a text node, the SHOW_TEXT walker filter. -/
def isTextNode : DomNode → Bool
  | .text _ => true
  | .elem _ _ _ _ _ => false

mutual

/-- Number of nodes of a subtree, used as fuel for the walker loop. -/
def nodeCount : DomNode → Nat
  | .text _ => 1
  | .elem _ _ _ _ ch => 1 + nodeCountList ch

/-- Number of nodes of a forest. -/
def nodeCountList : List DomNode → Nat
  | [] => 0
  | n :: rest => nodeCount n + nodeCountList rest

end

/-- The while loop of getArabicTextNodesIn: the tree walker visits the
pending nodes in document order (each node before its subtree, the
subtree before the right siblings) and the loop collects every visited
text node whose value has Arabic script.  One unit of fuel is spent per
visited node. -/
def walkerCollectAux : Nat → List DomNode → List DomNode
  | 0, _ => []
  | _ + 1, [] => []
  | fuel + 1, n :: rest =>
      let tail := walkerCollectAux fuel (nodeChildren n ++ rest)
      if isTextNode n && hasArabicScript n then n :: tail else tail

/-- getArabicTextNodesIn from main.ts: a tree walker rooted at the
given node with the SHOW_TEXT filter, driven by nextNode until
exhaustion.  nextNode starts at the root and only ever moves to nodes
after it inside the subtree, so the root itself is never returned. -/
def getArabicTextNodesIn (rootNode : DomNode) : List DomNode :=
  walkerCollectAux (nodeCountList (nodeChildren rootNode))
    (nodeChildren rootNode)

mutual

/-- Declarative document-order list of the text nodes of a subtree,
the node itself included when it is a text node. -/
def textNodesIn : DomNode → List DomNode
  | .text v => [.text v]
  | .elem _ _ _ _ ch => textNodesInList ch

/-- Declarative document-order list of the text nodes of a forest. -/
def textNodesInList : List DomNode → List DomNode
  | [] => []
  | n :: rest => textNodesIn n ++ textNodesInList rest

end

/-- The parameters captured by the mutation observer's callback
closure in startObserver. -/
structure ObsParams where
  textSize : ℚ
  lineHeight : ℚ
  font : String
deriving DecidableEq

/-- The content script's observer state: the module-level `observer`
variable (holding the identifier of the observer it references, or
nothing), the host's list of connected observer subscriptions with the
parameters their callbacks use, and a counter supplying fresh
identifiers. -/
structure ObserverEnv where
  handle : Option Nat
  connected : List (Nat × ObsParams)
  nextId : Nat
deriving DecidableEq

/-- startObserver from main.ts: only when the observer variable is
null, create a new observer whose callback closes over the given
parameters, connect it by observing the document body, and store it in
the variable. -/
def startObserver (e : ObserverEnv) (p : ObsParams) : ObserverEnv :=
  match e.handle with
  | some _ => e
  | none =>
      { handle := some e.nextId,
        connected := e.connected ++ [(e.nextId, p)],
        nextId := e.nextId + 1 }

/-- The disconnect step of the updateAllText message handler: if the
observer variable is non-null, disconnect that observer (the host drops
its subscription) and null the variable. -/
def disconnectObserver (e : ObserverEnv) : ObserverEnv :=
  match e.handle with
  | some i =>
      { handle := none,
        connected := e.connected.filter (fun q => q.1 != i),
        nextId := e.nextId }
  | none => e

/-- The observer-state effect of the updateAllText branch of the
message listener in main.ts: disconnect and clear any existing
observer, then start one with the message's parameters.  (The handler
also re-runs updateAll over the document, which does not touch the
observer state.) -/
def handleUpdateAllText (e : ObserverEnv) (p : ObsParams) : ObserverEnv :=
  startObserver (disconnectObserver e) p

/-- Events that touch the observer state: a startObserver call, or an
updateAllText message. -/
inductive ObsEvent where
  | start (p : ObsParams)
  | updateAllText (p : ObsParams)

/-- One observer-state transition per event. -/
def obsStep (e : ObserverEnv) : ObsEvent → ObserverEnv
  | .start p => startObserver e p
  | .updateAllText p => handleUpdateAllText e p

/-- Running a sequence of events from a state. -/
def runObsEvents (e : ObserverEnv) (evs : List ObsEvent) : ObserverEnv :=
  evs.foldl obsStep e

/-- The state at script load: no observer variable, no subscription. -/
def initialObserverEnv : ObserverEnv :=
  { handle := none, connected := [], nextId := 0 }

/-- A custom font record: font name and source url, the url possibly
null. -/
structure CustomFont where
  fontName : String
  url : Option String
deriving DecidableEq

/-- An element of the document head: a style element with an id and
its text content kept as the list of css rule strings appended to it,
a meta element with its attributes, or some other element. -/
inductive HeadItem where
  | styleEl (id : String) (cssRules : List String)
  | metaEl (attrs : List (String × String))
  | otherEl (tag : String)
deriving DecidableEq

/-- Whether a head element is a style element with the given id. -/
def isStyleWithId (item : HeadItem) (i : String) : Bool :=
  match item with
  | .styleEl j _ => j == i
  | _ => false

/-- The font-face css rule string one loop iteration of
injectCustomFonts appends: a local source always, and a url source only
when the url string is truthy, that is, non-null and non-empty. -/
def fontFaceRule (f : CustomFont) : String :=
  let base := "@font-face \x7b font-family: \x27" ++ f.fontName ++
    "\x27; src: local(\x27" ++ f.fontName ++ "\x27)"
  let withUrl :=
    match f.url with
    | some u => if u.isEmpty then base
        else base ++ ", url(\x27" ++ u ++ "\x27)"
    | none => base
  withUrl ++ "; \x7d\n"

/-- Removal of the first element with the given style id, as
removeChild removes the element getElementById found. -/
def removeFirstStyleWithId : List HeadItem → String → List HeadItem
  | [], _ => []
  | h :: t, i =>
      if isStyleWithId h i then t else h :: removeFirstStyleWithId t i

/-- injectCustomFonts from main.ts: if a style element with id
wudoohCustomFontsStyle exists it is emptied and removed from the head;
a fresh style element with that id is then filled with one font-face
rule per custom font, in order, and appended to the head. -/
def injectCustomFonts (head : List HeadItem)
    (customFonts : List CustomFont) : List HeadItem :=
  removeFirstStyleWithId head "wudoohCustomFontsStyle" ++
    [HeadItem.styleEl "wudoohCustomFontsStyle"
      (customFonts.map fontFaceRule)]

/-- Whether a head element is a meta element with attribute
wudooh="true". -/
def isWudoohMeta (item : HeadItem) : Bool :=
  match item with
  | .metaEl attrs => getAttr attrs "wudooh" == some "true"
  | _ => false

/-- notifyDocument from main.ts: create a meta element with attribute
wudooh="true" and append it to the document head. -/
def notifyDocument (head : List HeadItem) : List HeadItem :=
  head ++ [HeadItem.metaEl [("wudooh", "true")]]

/-- The number of wudooh marker meta elements in the head. -/
def countWudoohMeta (head : List HeadItem) : Nat :=
  (head.filter isWudoohMeta).length

/-- A per-site settings record, as stored under the customSettings
key. -/
structure CustomSettings where
  url : String
  textSize : ℚ
  lineHeight : ℚ
  font : String
deriving DecidableEq

/-- The persisted settings store; every key is absent (`none`) or holds
a value of its type. -/
structure WudoohStorage where
  textSize : Option ℚ
  lineHeight : Option ℚ
  onOff : Option Bool
  font : Option String
  whitelisted : Option (List String)
  customSettings : Option (List CustomSettings)
  customFonts : Option (List CustomFont)
deriving DecidableEq

/-- The install and update listener of src/src/background.ts: for every
key, write the default only when the stored value compares equal to
null, which holds exactly for a missing value.  The default numeric and
font values live in shared.ts (not under src/), so they are parameters
here; the defaults for onOff and the three list keys are literals in
the handler itself.  (The handler additionally opens a page on update
and messages all tabs, which does not touch the store.) -/
def onInstalled (defaultTextSize defaultLineHeight : ℚ)
    (defaultFont : String) (s : WudoohStorage) : WudoohStorage :=
  { textSize := if s.textSize = none then some defaultTextSize else s.textSize
    lineHeight :=
      if s.lineHeight = none then some defaultLineHeight else s.lineHeight
    onOff := if s.onOff = none then some true else s.onOff
    font := if s.font = none then some defaultFont else s.font
    whitelisted := if s.whitelisted = none then some [] else s.whitelisted
    customSettings :=
      if s.customSettings = none then some [] else s.customSettings
    customFonts := if s.customFonts = none then some [] else s.customFonts }

/-- JavaScript truthiness of a possibly absent number: null, undefined
and zero are falsy. -/
def truthyNum (v : Option ℚ) : Bool :=
  match v with
  | none => false
  | some x => decide (x ≠ 0)

/-- JavaScript truthiness of a possibly absent boolean. -/
def truthyBool (v : Option Bool) : Bool :=
  match v with
  | none => false
  | some b => b

/-- JavaScript truthiness of a possibly absent string: null, undefined
and the empty string are falsy. -/
def truthyStr (v : Option String) : Bool :=
  match v with
  | none => false
  | some s => !s.isEmpty

/-- JavaScript truthiness of a possibly absent array: any array object
is truthy. -/
def truthyList {α : Type} (v : Option (List α)) : Bool :=
  match v with
  | none => false
  | some _ => true

/-- The install and update listener of src/unnamed/part_000: for every
key, write the default only when the stored value is falsy, so a stored
false, zero or empty string is overwritten.  customFonts lives in the
local area for this version but is initialized the same way. -/
def onInstalledLegacy (defaultTextSize defaultLineHeight : ℚ)
    (defaultFont : String) (s : WudoohStorage) : WudoohStorage :=
  { textSize :=
      if truthyNum s.textSize then s.textSize else some defaultTextSize
    lineHeight :=
      if truthyNum s.lineHeight then s.lineHeight else some defaultLineHeight
    onOff := if truthyBool s.onOff then s.onOff else some true
    font := if truthyStr s.font then s.font else some defaultFont
    whitelisted :=
      if truthyList s.whitelisted then s.whitelisted else some []
    customSettings :=
      if truthyList s.customSettings then s.customSettings else some []
    customFonts :=
      if truthyList s.customFonts then s.customFonts else some [] }

/-- The inline style of a node; a text node has none. -/
def styleOf : DomNode → Style
  | .text _ => {}
  | .elem _ _ st _ _ => st

/-- C1: for every string s, hasArabicScript on a node with value s is
true exactly when s contains at least one character of the five target
Unicode ranges; in particular the empty string and strings without such
a character never match. -/
theorem C1_classifier_matches_iff (s : String) :
    hasArabicScript (DomNode.text s) = true ↔
      ∃ c ∈ s.data,
        (0x600 ≤ c.toNat ∧ c.toNat ≤ 0x6FF) ∨
        (0x750 ≤ c.toNat ∧ c.toNat ≤ 0x77F) ∨
        (0x8A0 ≤ c.toNat ∧ c.toNat ≤ 0x8FF) ∨
        (0xFB50 ≤ c.toNat ∧ c.toNat ≤ 0xFDFF) ∨
        (0xFE70 ≤ c.toNat ∧ c.toNat ≤ 0xFEFF) := by
  have hcls : ∀ c : Char, arabicCharCls c = true ↔
      (0x600 ≤ c.toNat ∧ c.toNat ≤ 0x6FF) ∨
      (0x750 ≤ c.toNat ∧ c.toNat ≤ 0x77F) ∨
      (0x8A0 ≤ c.toNat ∧ c.toNat ≤ 0x8FF) ∨
      (0xFB50 ≤ c.toNat ∧ c.toNat ≤ 0xFDFF) ∨
      (0xFE70 ≤ c.toNat ∧ c.toNat ≤ 0xFEFF) := by
    intro c
    simp only [arabicCharCls, Bool.or_eq_true, Bool.and_eq_true,
      decide_eq_true_eq]
    tauto
  constructor
  · intro h
    simp only [hasArabicScript, nodeValue, Bool.and_eq_true,
      searchMatch_arabicRegex, List.any_eq_true] at h
    obtain ⟨-, c, hc, hcc⟩ := h
    exact ⟨c, hc, (hcls c).mp hcc⟩
  · rintro ⟨c, hc, hcc⟩
    have hne : s.isEmpty = false := by
      cases he : s.isEmpty with
      | false => rfl
      | true =>
          have : s = "" := (String.isEmpty_iff s).mp he
          subst this
          simp at hc
    simp only [hasArabicScript, nodeValue, Bool.and_eq_true,
      searchMatch_arabicRegex, List.any_eq_true, hne, Bool.not_false,
      true_and]
    exact ⟨c, hc, (hcls c).mpr hcc⟩

/-- C7: updateNode on a detached node (absent parent reference) is a
silent no-op for every node, index and parameter choice: the model is
total, so no error is surfaced, and the absent parent is returned
untouched. -/
theorem C7_detached_noop (node : DomNode) (idx : Nat) (ts lh : ℚ)
    (font : String) : updateNode node none idx ts lh font = none := by
  cases node with
  | text v =>
      by_cases he : v.isEmpty
      · simp [updateNode, nodeValue, he]
      · simp [updateNode, nodeValue, he, hasBeenUpdated, updateByAdding,
          setNodeHtml]
  | elem t a st ce ch => simp [updateNode, nodeValue]

/-- A wrapped and content-editable wrapper span around an Arabic text
node, as arises when a wudooh wrapper sits inside a region that is or
becomes content-editable. -/
def editableWrapper : DomNode :=
  .elem "span" [("wudooh", "true")]
    { fontSize := some 1, lineHeight := some 1, fontFamily := none }
    true [.text "مرحبا"]

/-- C2 counterexample: in the Wrapped state the editable guard does not
apply.  The parent wrapper here is content-editable, yet updateNode
overwrites its inline style: the subtree is not left unchanged. -/
theorem C2_counterexample :
    isEditable editableWrapper = true ∧
    hasBeenUpdated (some editableWrapper) = true ∧
    updateNode (.text "مرحبا") (some editableWrapper) 0 200 200 "Original" ≠
      some editableWrapper := by
  refine ⟨rfl, rfl, ?_⟩
  intro h
  have h2 : (some (some ((200 : ℚ) / 100)) : Option (Option ℚ)) =
      some (some 1) :=
    congrArg (Option.map (fun n => (styleOf n).fontSize)) h
  simp only [Option.some.injEq] at h2
  norm_num at h2

/-- C2 (amended): the editable guard holds in the Unwrapped state: when
the parent or the node reports editable and the parent does not carry
the wudooh marker, updateNode returns the parent byte-identical, for
any parameters. -/
theorem C2_editable_guard_unwrapped (node p : DomNode) (idx : Nat)
    (ts lh : ℚ) (font : String)
    (hed : isEditable p = true ∨ isEditable node = true)
    (hwrap : hasBeenUpdated (some p) = false) :
    updateNode node (some p) idx ts lh font = some p := by
  have hor : (isEditable p || isEditable node) = true := by
    rcases hed with h | h <;> simp [h]
  cases node with
  | text v =>
      by_cases he : v.isEmpty
      · simp [updateNode, nodeValue, he]
      · simp [updateNode, nodeValue, he, hwrap, updateByAdding,
          setNodeHtml, hor]
  | elem t a st ce ch => simp [updateNode, nodeValue]

/-- A textarea parent holding an Arabic text node. -/
def textareaParent : DomNode :=
  .elem "textarea" [] {} false [.text "مرحبا"]

theorem C2_editable_guard_unwrapped_witness :
    isEditable textareaParent = true ∧
    hasBeenUpdated (some textareaParent) = false ∧
    updateNode (.text "مرحبا") (some textareaParent) 0 150 120 "Arial" =
      some textareaParent :=
  ⟨by decide, rfl,
    C2_editable_guard_unwrapped (.text "مرحبا") textareaParent 0 150 120
      "Arial" (Or.inl (by decide)) rfl⟩

/-- An already wrapped unit whose text value is empty. -/
def emptyWrapped : DomNode :=
  .elem "span" [("wudooh", "true")]
    { fontSize := some 1, lineHeight := some 1, fontFamily := none }
    false [.text ""]

/-- C3 counterexample: a unit that is already Wrapped (the parent
carries wudooh="true") but has an empty value is skipped by the
truthiness guard on nodeValue, so after applying updateNode its
font-size stays 1em instead of becoming 150/100 em. -/
theorem C3_counterexample :
    hasBeenUpdated (some emptyWrapped) = true ∧
    updateNode (.text "") (some emptyWrapped) 0 150 120 "Original" =
      some emptyWrapped ∧
    (styleOf emptyWrapped).fontSize = some 1 ∧
    (1 : ℚ) ≠ 150 / 100 := by
  refine ⟨rfl, rfl, rfl, by norm_num⟩

/-- One step on a wrapped unit with a non-empty value: updateNode takes
the updateByChanging branch and overwrites the wrapper's style. -/
theorem updateNode_wrapped (t : String) (a : List (String × String))
    (st : Style) (ce : Bool) (ch : List DomNode) (v : String) (idx : Nat)
    (ts lh : ℚ) (font : String)
    (hmark : getAttr a "wudooh" = some "true") (hv : v.isEmpty = false) :
    updateNode (.text v) (some (.elem t a st ce ch)) idx ts lh font =
      some (.elem t a
        { fontSize := some (ts / 100), lineHeight := some (lh / 100),
          fontFamily := if font = "Original" then none else some font }
        ce ch) := by
  simp [updateNode, nodeValue, hv, hasBeenUpdated, hmark,
    updateByChanging]

/-- C3 (amended): for a unit with a non-empty value that is already
Wrapped, any positive number of updateNode applications with the same
parameters leaves the single marker-carrying wrapper in place with
unchanged tag, attributes, editability and children, and with final
inline font-size and line-height equal to the parameters divided by
100 (in em); no second wrapper is created and the tree structure is
not modified. -/
theorem C3_wrapped_idempotent (t : String) (a : List (String × String))
    (st : Style) (ce : Bool) (ch : List DomNode) (v : String) (idx : Nat)
    (ts lh : ℚ) (font : String) (n : Nat)
    (hmark : getAttr a "wudooh" = some "true") (hv : v.isEmpty = false)
    (hn : 1 ≤ n) :
    updateNodeIter (.text v) (some (.elem t a st ce ch)) idx ts lh font n =
      some (.elem t a
        { fontSize := some (ts / 100), lineHeight := some (lh / 100),
          fontFamily := if font = "Original" then none else some font }
        ce ch) := by
  induction n with
  | zero => exact absurd hn (by simp)
  | succ m ih =>
      cases m with
      | zero =>
          simpa [updateNodeIter] using
            updateNode_wrapped t a st ce ch v idx ts lh font hmark hv
      | succ k =>
          have hk : 1 ≤ k + 1 := Nat.succ_le_succ (Nat.zero_le k)
          have hstep := ih hk
          rw [show updateNodeIter (.text v) (some (.elem t a st ce ch))
                idx ts lh font (k + 1 + 1) =
              updateNode (.text v)
                (updateNodeIter (.text v) (some (.elem t a st ce ch))
                  idx ts lh font (k + 1)) idx ts lh font from rfl,
            hstep]
          exact updateNode_wrapped t a _ ce ch v idx ts lh font hmark hv

theorem C3_wrapped_idempotent_witness :
    updateNodeIter (.text "مرحبا") (some editableWrapper) 0 150 120
      "Original" 3 =
      some (.elem "span" [("wudooh", "true")]
        { fontSize := some ((150 : ℚ) / 100),
          lineHeight := some ((120 : ℚ) / 100), fontFamily := none }
        true [.text "مرحبا"]) := by
  have h := C3_wrapped_idempotent "span" [("wudooh", "true")]
    { fontSize := some 1, lineHeight := some 1, fontFamily := none }
    true [.text "مرحبا"] "مرحبا" 0 150 120 "Original" 3 rfl rfl
    (by norm_num)
  simpa [editableWrapper] using h

/-- C6: applying updateNode to an Unwrapped unit with value
"hello مرحبا world" at textSize 150, lineHeight 120 and font
"Original" yields exactly one marker-carrying span, wrapping the
Arabic run together with its trailing space, with font-size 150/100 em
(that is 1.5em), line-height 120/100 em (1.2em) and no font-family
declaration; in general the sentinel "Original" yields no font-family
on wrapping and clears it on a Wrapped update, while any other font
yields a font-family override in both branches. -/
theorem C6_transition_and_sentinel :
    (updateNode (.text "hello مرحبا world")
        (some (.elem "p" [] {} false [.text "hello مرحبا world"])) 0
        150 120 "Original" =
      some (.elem "p" [] {} false
        [.text "hello ",
         .elem "span" [("wudooh", "true")]
           { fontSize := some ((150 : ℚ) / 100),
             lineHeight := some ((120 : ℚ) / 100), fontFamily := none }
           false [.text "مرحبا "],
         .text "world"])) ∧
    (150 : ℚ) / 100 = 3 / 2 ∧ (120 : ℚ) / 100 = 6 / 5 ∧
    (∀ (ts lh : ℚ) (font : String), font ≠ "Original" →
      (wrapStyle ts lh font).fontFamily = some font) ∧
    (∀ ts lh : ℚ, (wrapStyle ts lh "Original").fontFamily = none) ∧
    (∀ (t : String) (a : List (String × String)) (st : Style) (ce : Bool)
        (ch : List DomNode) (ts lh : ℚ) (font : String),
      font ≠ "Original" →
      (styleOf (updateByChanging (.elem t a st ce ch) ts lh font)).fontFamily =
        some font) ∧
    (∀ (t : String) (a : List (String × String)) (st : Style) (ce : Bool)
        (ch : List DomNode) (ts lh : ℚ),
      (styleOf
        (updateByChanging (.elem t a st ce ch) ts lh "Original")).fontFamily =
        none) := by
  refine ⟨rfl, by norm_num, by norm_num, ?_, ?_, ?_, ?_⟩
  · intro ts lh font h
    simp [wrapStyle, h]
  · intro ts lh
    simp [wrapStyle]
  · intro t a st ce ch ts lh font h
    simp [updateByChanging, styleOf, h]
  · intro t a st ce ch ts lh
    simp [updateByChanging, styleOf]

theorem C6_transition_and_sentinel_witness :
    (wrapStyle ((150 : ℚ) / 100) ((120 : ℚ) / 100) "Arial").fontFamily =
      some "Arial" ∧
    (styleOf
      (updateByChanging (.elem "span" [] {} false []) 1 1
        "Arial")).fontFamily = some "Arial" :=
  ⟨C6_transition_and_sentinel.2.2.2.1 ((150 : ℚ) / 100)
      ((120 : ℚ) / 100) "Arial" (by decide),
    C6_transition_and_sentinel.2.2.2.2.2.1 "span" [] {} false [] 1 1
      "Arial" (by decide)⟩

theorem nodeCount_pos (n : DomNode) : 1 ≤ nodeCount n := by
  cases n with
  | text v => simp [nodeCount]
  | elem t a st ce ch => simp [nodeCount]

theorem nodeCountList_append (l r : List DomNode) :
    nodeCountList (l ++ r) = nodeCountList l + nodeCountList r := by
  induction l with
  | nil => simp [nodeCountList]
  | cons n t ih => simp [nodeCountList, ih, Nat.add_assoc]

theorem textNodesInList_append (l r : List DomNode) :
    textNodesInList (l ++ r) = textNodesInList l ++ textNodesInList r := by
  induction l with
  | nil => simp [textNodesInList]
  | cons n t ih => simp [textNodesInList, ih]

/-- The walker loop, given enough fuel, collects exactly the document
order text nodes of the pending forest that have Arabic script. -/
theorem walkerCollectAux_adequate :
    ∀ (fuel : Nat) (stack : List DomNode), nodeCountList stack ≤ fuel →
      walkerCollectAux fuel stack =
        (textNodesInList stack).filter hasArabicScript := by
  intro fuel
  induction fuel with
  | zero =>
      intro stack h
      cases stack with
      | nil => rfl
      | cons n rest =>
          exfalso
          have h1 := nodeCount_pos n
          simp [nodeCountList] at h
          omega
  | succ fuel ih =>
      intro stack h
      cases stack with
      | nil => rfl
      | cons n rest =>
          have hfit : nodeCountList (nodeChildren n ++ rest) ≤ fuel := by
            rw [nodeCountList_append]
            cases n with
            | text v =>
                simp only [nodeCount, nodeCountList, nodeChildren] at h ⊢
                omega
            | elem t a st ce ch =>
                simp only [nodeCount, nodeCountList, nodeChildren] at h ⊢
                omega
          have hrec := ih _ hfit
          cases n with
          | text v =>
              simp only [nodeChildren, List.nil_append] at hrec
              simp only [walkerCollectAux, nodeChildren, isTextNode,
                Bool.true_and, List.nil_append]
              simp only [textNodesInList, textNodesIn, List.filter_cons,
                List.singleton_append]
              cases ha : hasArabicScript (.text v) <;> simp [ha, hrec]
          | elem t a st ce ch =>
              simp only [nodeChildren] at hrec
              simp only [walkerCollectAux, nodeChildren, isTextNode,
                Bool.false_and, if_neg, hrec]
              simp only [textNodesInList, textNodesIn,
                textNodesInList_append, List.filter_append]
              simp

/-- C4 (amended): the scanner returns, in document order, exactly the
proper-descendant text nodes of the root for which the classifier is
true; the root itself is never returned, even when it is a matching
text node, because the tree walker's nextNode always moves past its
starting node.  The result is a fully materialized list. -/
theorem C4_scanner_proper_descendants (root : DomNode) :
    getArabicTextNodesIn root =
      (textNodesInList (nodeChildren root)).filter hasArabicScript :=
  walkerCollectAux_adequate _ _ (Nat.le_refl _)

/-- C4 counterexample: a root that is itself a matching text node is
not contained in the scanner's output, which is empty, contradicting
the claim that the root is included when it is a matching text-bearing
node. -/
theorem C4_counterexample :
    hasArabicScript (DomNode.text "م") = true ∧
    getArabicTextNodesIn (DomNode.text "م") = [] := ⟨rfl, rfl⟩

/-- The invariant tying the observer variable to the host's connected
subscriptions: either the variable is null and nothing is connected, or
it references the single connected subscription. -/
def obsOk (e : ObserverEnv) : Prop :=
  (e.handle = none ∧ e.connected = []) ∨
  ∃ i p, e.handle = some i ∧ e.connected = [(i, p)]

theorem obsOk_startObserver (e : ObserverEnv) (p : ObsParams)
    (h : obsOk e) : obsOk (startObserver e p) := by
  rcases h with ⟨h1, h2⟩ | ⟨i, q, h1, h2⟩
  · right
    exact ⟨e.nextId, p, by simp [startObserver, h1, h2],
      by simp [startObserver, h1, h2]⟩
  · right
    exact ⟨i, q, by simp [startObserver, h1],
      by simp [startObserver, h1, h2]⟩

theorem obsOk_disconnect (e : ObserverEnv) (h : obsOk e) :
    obsOk (disconnectObserver e) := by
  rcases h with ⟨h1, h2⟩ | ⟨i, q, h1, h2⟩
  · left
    exact ⟨by simp [disconnectObserver, h1], by simp [disconnectObserver, h1, h2]⟩
  · left
    exact ⟨by simp [disconnectObserver, h1], by simp [disconnectObserver, h1, h2]⟩

theorem obsOk_step (e : ObserverEnv) (ev : ObsEvent) (h : obsOk e) :
    obsOk (obsStep e ev) := by
  cases ev with
  | start p => exact obsOk_startObserver e p h
  | updateAllText p =>
      exact obsOk_startObserver _ p (obsOk_disconnect e h)

theorem obsOk_run (evs : List ObsEvent) :
    ∀ e : ObserverEnv, obsOk e → obsOk (runObsEvents e evs) := by
  induction evs with
  | nil => intro e h; exact h
  | cons ev rest ih => intro e h; exact ih _ (obsOk_step e ev h)

/-- C5: at most one mutation-observer subscription is active at any
time during any sequence of startObserver calls and updateAllText
messages from script load; startObserver with a non-null observer
variable is a no-op; and the start, stop-and-restart sequence with new
parameters leaves exactly one subscription, whose callback closes over
the latest parameters. -/
theorem C5_single_subscription :
    (∀ evs : List ObsEvent,
      (runObsEvents initialObserverEnv evs).connected.length ≤ 1) ∧
    (∀ (i nid : Nat) (conn : List (Nat × ObsParams)) (p : ObsParams),
      startObserver ⟨some i, conn, nid⟩ p = ⟨some i, conn, nid⟩) ∧
    (∀ p1 p2 : ObsParams,
      (runObsEvents initialObserverEnv
        [ObsEvent.start p1, ObsEvent.updateAllText p2]).connected.map
          Prod.snd = [p2]) := by
  refine ⟨?_, ?_, ?_⟩
  · intro evs
    have h := obsOk_run evs initialObserverEnv (Or.inl ⟨rfl, rfl⟩)
    rcases h with ⟨-, h2⟩ | ⟨i, p, -, h2⟩ <;> simp [h2]
  · intro i nid conn p
    rfl
  · intro p1 p2
    rfl

/-- C8 counterexample: a descriptor whose url is the empty string is
non-null, yet the generated rule carries no url source clause: the
injection result is identical to that for a null url. -/
theorem C8_counterexample :
    injectCustomFonts [] [{ fontName := "A", url := some "" }] =
      injectCustomFonts [] [{ fontName := "A", url := none }] ∧
    (some "" : Option String) ≠ none ∧
    fontFaceRule { fontName := "A", url := some "" } =
      "@font-face \x7b font-family: \x27A\x27; src: local(\x27A\x27); \x7d\n" := by
  refine ⟨rfl, by decide, rfl⟩

/-- After removal of the first style element with the given id, no
element with that id remains, provided at most one was present. -/
theorem removeFirst_filter_nil (head : List HeadItem) (i : String)
    (h : (head.filter (fun x => isStyleWithId x i)).length ≤ 1) :
    (removeFirstStyleWithId head i).filter (fun x => isStyleWithId x i) =
      [] := by
  induction head with
  | nil => rfl
  | cons x t ih =>
      by_cases hx : isStyleWithId x i = true
      · simp only [removeFirstStyleWithId, hx, if_true]
        have hlen : (t.filter (fun x => isStyleWithId x i)).length = 0 := by
          simp only [List.filter_cons, hx, if_true, List.length_cons] at h
          omega
        simpa [List.length_eq_zero] using hlen
      · simp only [removeFirstStyleWithId, hx, if_false,
          Bool.false_eq_true, List.filter_cons]
        refine ih ?_
        simpa [List.filter_cons, hx] using h

/-- C8 (amended): provided the head holds at most one style element
with id wudoohCustomFontsStyle — the invariant the function itself
maintains — after injectCustomFonts the head holds exactly one, freshly
appended, whose content is one font-face rule per descriptor in input
order; the rule carries a url source clause iff the descriptor's url is
truthy, that is, non-null and non-empty, as the two closing concrete
rule computations illustrate. -/
theorem C8_inject_custom_fonts (head : List HeadItem)
    (fonts : List CustomFont)
    (h : (head.filter
      (fun x => isStyleWithId x "wudoohCustomFontsStyle")).length ≤ 1) :
    (injectCustomFonts head fonts).filter
        (fun x => isStyleWithId x "wudoohCustomFontsStyle") =
      [HeadItem.styleEl "wudoohCustomFontsStyle"
        (fonts.map fontFaceRule)] ∧
    fontFaceRule { fontName := "A", url := some "https://e.x/f.woff" } =
      "@font-face \x7b font-family: \x27A\x27; src: local(\x27A\x27), url(\x27https://e.x/f.woff\x27); \x7d\n" ∧
    fontFaceRule { fontName := "A", url := none } =
      "@font-face \x7b font-family: \x27A\x27; src: local(\x27A\x27); \x7d\n" := by
  refine ⟨?_, rfl, rfl⟩
  have hrem := removeFirst_filter_nil head "wudoohCustomFontsStyle" h
  have hse : isStyleWithId
      (HeadItem.styleEl "wudoohCustomFontsStyle" (fonts.map fontFaceRule))
      "wudoohCustomFontsStyle" = true := rfl
  simp only [injectCustomFonts, List.filter_append, hrem,
    List.nil_append, List.filter_cons, hse, if_true, List.filter_nil]

theorem C8_inject_custom_fonts_witness :
    (injectCustomFonts [] [{ fontName := "A", url := none }]).filter
        (fun x => isStyleWithId x "wudoohCustomFontsStyle") =
      [HeadItem.styleEl "wudoohCustomFontsStyle"
        ([{ fontName := "A", url := none }].map fontFaceRule)] :=
  (C8_inject_custom_fonts [] [{ fontName := "A", url := none }]
    (by simp)).1

/-- C9 counterexample: notifyDocument is not idempotent; two calls
leave two marker meta elements in the head, not at most one. -/
theorem C9_counterexample :
    countWudoohMeta (notifyDocument (notifyDocument [])) = 2 := rfl

/-- C9 (amended): every call to notifyDocument unconditionally appends
one more meta marker element with wudooh="true" to the head, so n
calls leave n markers; the call is not idempotent, but the content
script runs it only once per pass. -/
theorem C9_notify_appends_marker (head : List HeadItem) :
    countWudoohMeta (notifyDocument head) = countWudoohMeta head + 1 := by
  simp [countWudoohMeta, notifyDocument, List.filter_append, isWudoohMeta,
    getAttr]

/-- A store in which every key holds a value and the switch is off. -/
def storeAllSetOff : WudoohStorage :=
  { textSize := some 1, lineHeight := some 1, onOff := some false,
    font := some "F", whitelisted := some [], customSettings := some [],
    customFonts := some [] }

/-- C10 counterexample: the legacy handler of src/unnamed/part_000
checks truthiness, so a stored onOff = false is overwritten with true
rather than left unchanged. -/
theorem C10_counterexample :
    storeAllSetOff.onOff = some false ∧
    (onInstalledLegacy 1 1 "F" storeAllSetOff).onOff = some true := ⟨rfl, rfl⟩

/-- C10 (amended): the handler of src/src/background.ts compares with
null, so it writes a default exactly for the keys with no stored value
and preserves every stored value, a stored onOff = false included; the
legacy handler of src/unnamed/part_000 instead resets falsy stored
values. -/
theorem C10_initializes_only_missing (d1 d2 : ℚ) (df : String)
    (s : WudoohStorage) :
    (∀ v, s.textSize = some v → (onInstalled d1 d2 df s).textSize = some v) ∧
    (s.textSize = none → (onInstalled d1 d2 df s).textSize = some d1) ∧
    (∀ v, s.lineHeight = some v →
      (onInstalled d1 d2 df s).lineHeight = some v) ∧
    (s.lineHeight = none → (onInstalled d1 d2 df s).lineHeight = some d2) ∧
    (∀ b, s.onOff = some b → (onInstalled d1 d2 df s).onOff = some b) ∧
    (s.onOff = none → (onInstalled d1 d2 df s).onOff = some true) ∧
    (∀ v, s.font = some v → (onInstalled d1 d2 df s).font = some v) ∧
    (s.font = none → (onInstalled d1 d2 df s).font = some df) ∧
    (∀ v, s.whitelisted = some v →
      (onInstalled d1 d2 df s).whitelisted = some v) ∧
    (s.whitelisted = none → (onInstalled d1 d2 df s).whitelisted = some []) ∧
    (∀ v, s.customSettings = some v →
      (onInstalled d1 d2 df s).customSettings = some v) ∧
    (s.customSettings = none →
      (onInstalled d1 d2 df s).customSettings = some []) ∧
    (∀ v, s.customFonts = some v →
      (onInstalled d1 d2 df s).customFonts = some v) ∧
    (s.customFonts = none → (onInstalled d1 d2 df s).customFonts = some []) := by
  refine ⟨?_, ?_, ?_, ?_, ?_, ?_, ?_, ?_, ?_, ?_, ?_, ?_, ?_, ?_⟩ <;>
    first
      | (intro v hv; simp [onInstalled, hv])
      | (intro hv; simp [onInstalled, hv])

/-- A store with some keys missing, the switch stored as off, and some
keys holding values. -/
def storeMixed : WudoohStorage :=
  { textSize := none, lineHeight := some 2, onOff := some false,
    font := none, whitelisted := some ["a.example"],
    customSettings := none, customFonts := some [] }

theorem C10_initializes_only_missing_witness :
    (onInstalled 5 7 "DF" storeMixed).onOff = some false ∧
    (onInstalled 5 7 "DF" storeMixed).textSize = some 5 ∧
    (onInstalled 5 7 "DF" storeMixed).whitelisted = some ["a.example"] :=
  ⟨(C10_initializes_only_missing 5 7 "DF" storeMixed).2.2.2.2.1 false rfl,
    (C10_initializes_only_missing 5 7 "DF" storeMixed).2.1 rfl,
    (C10_initializes_only_missing 5 7 "DF"
      storeMixed).2.2.2.2.2.2.2.2.1 ["a.example"] rfl⟩

end Wudooh
